import Mathlib

/-!
Verification of the zenn-like-md-to-html exporter (src/exportPage.ts,
second document variant, lines 1150-1739) against its specification.

The TypeScript source is shallowly embedded here over `List Char` / `String`.
JavaScript regular-expression behaviour is embedded by its operational
semantics on character lists (backtracking order of alternatives, laziness,
multiline anchors).  Line terminators are modelled as `'\n'` and `'\r'`
exactly where the source's regexes treat them as such; JS-specific Unicode
terminators (U+2028/U+2029) are outside the model.  Functions whose JS
originals loop over shrinking strings are written with an explicit fuel
argument equal to the input length, which is always sufficient because each
iteration consumes at least one character; this keeps every definition
kernel-reducible.
-/

namespace ZennExport

/-- Characters the source's `/\n|\r/` alternation (and the `m` flag of its
regexes) treats as line terminators. -/
def isTerm (c : Char) : Bool := c = '\n' || c = '\r'

/-- Word characters of the regex class `\w`. -/
def isWordChar (c : Char) : Bool :=
  ('a' ≤ c && c ≤ 'z') || ('A' ≤ c && c ≤ 'Z') || ('0' ≤ c && c ≤ '9') || c = '_'

/-- ASCII lowercasing, the fragment of JS `toLowerCase` exercised here. -/
def asciiLower (c : Char) : Char :=
  if 'A' ≤ c && c ≤ 'Z' then Char.ofNat (c.toNat + 32) else c

/-- Whitespace removed by JS `String.prototype.trim` (ASCII fragment). -/
def isJsSpace (c : Char) : Bool :=
  c = ' ' || c = '\t' || c = '\n' || c = '\r' || c = '\x0b' || c = '\x0c'

/-- JS `trim`: strip whitespace from both ends. -/
def jsTrim (l : List Char) : List Char :=
  ((l.dropWhile isJsSpace).reverse.dropWhile isJsSpace).reverse

/-- Split a character list at every occurrence of `sep`; yields the list of
parts exactly as JS `String.prototype.split` with a single-character
separator does (n separators give n+1 parts). -/
def splitChar (sep : Char) : List Char → List (List Char)
  | [] => [[]]
  | c :: cs =>
    match splitChar sep cs with
    | [] => [[c]]
    | h :: t => if c = sep then [] :: h :: t else (c :: h) :: t

/-- Split at every `'\n'` or `'\r'`, as the source's `split(/\n|\r/g)` does. -/
def splitTermChars : List Char → List (List Char)
  | [] => [[]]
  | c :: cs =>
    match splitTermChars cs with
    | [] => [[c]]
    | h :: t => if isTerm c then [] :: h :: t else (c :: h) :: t

/-- Does `p` occur as a contiguous substring of `l`? -/
def hasSub (l p : List Char) : Bool :=
  p.isPrefixOf l ||
    match l with
    | [] => false
    | _ :: t => hasSub t p

/-! ## Block Scanner (buildHtml, lines 1294-1318)

The source splits the document with
`codeBlockRegex = /(:{3,}|`{3,})(?:(.*$)\n)?([\s\S]*?)(?:(?:\n\1)|$)/m`
in a loop that emits the text before each match as a `plain` block, the
match itself as a `code`/`callout` block, and continues on the remainder.
The embedding below reproduces the regex's backtracking semantics:

* the match starts at the first run of three identical `':'` or `` '`' ``
  characters; group 1 greedily takes the whole run;
* the optional group `(?:(.*$)\n)?` consumes the rest of the opening line
  including its newline exactly when the first line terminator after the
  run is a literal `'\n'` (`.` stops at `'\n'` and `'\r'` alike, but the
  group then demands a literal `'\n'`, so a `'\r'` makes the group fail
  and be skipped);
* the lazy body `([\s\S]*?)` grows until the first position where either
  a literal `\n` followed by the group-1 run matches (closing the block,
  consuming it) or the multiline `$` matches (before `'\n'` or `'\r'`, or
  at end of input, consuming nothing). -/

/-- Index of the first run of three identical delimiter characters
(`':'` or `` '`' ``), together with that character. -/
def findTripleAny : List Char → Option (Nat × Char)
  | [] => none
  | x :: xs =>
    if (x = ':' || x = '`') && decide (xs.take 2 = [x, x]) then some (0, x)
    else (findTripleAny xs).map (fun p => (p.1 + 1, p.2))

/-- Number of characters the lazy body plus the closer consume, scanning
`u` for the first line terminator (`'\n'` or `'\r'`) or the end of input;
`n` is the length of the group-1 run of `d`.  The closer `\n\1` fires only
on a literal `'\n'` followed by the run; otherwise the multiline `$`
consumes nothing. -/
def contentLen (d : Char) (n : Nat) (u : List Char) : Nat :=
  let c1 := u.takeWhile fun c => !isTerm c
  match u.drop c1.length with
  | [] => c1.length
  | c :: r2 =>
    if c = '\n' && decide (r2.take n = List.replicate n d) then c1.length + 1 + n
    else c1.length

/-- Total length of the regex match when `t` starts with the delimiter run
of `d` (the match starts at `t`'s head).  The optional tag-line group is
taken exactly when the first terminator after the run is a literal `'\n'`
(a `'\r'` there makes the group's trailing `\n` fail, so the group is
skipped and the lazy body starts right after the run). -/
def blockMatchLen (d : Char) (t : List Char) : Nat :=
  let n := (t.takeWhile (· = d)).length
  let after := t.drop n
  let tagLen := (after.takeWhile fun c => !isTerm c).length
  if (after.drop tagLen).take 1 = ['\n'] then
    n + tagLen + 1 + contentLen d n (t.drop (n + tagLen + 1))
  else
    n + contentLen d n after

/-- One typed segment of the scanned document (`markdownBlock` class). -/
structure MarkdownBlock where
  text : List Char
  type : String
deriving Repr, DecidableEq

/-- Segment kind from the block's leading characters (lines 1308-1315). -/
def blockTypeOf (blk : List Char) : String :=
  if blk.take 3 = ['`', '`', '`'] then "code"
  else if blk.take 3 = [':', ':', ':'] then "callout"
  else "unknown"

/-- The scanner loop.  Fuel decreases once per iteration; each iteration
consumes at least the three delimiter characters, so fuel equal to the text
length always suffices.  NOTE: faithful to the source, the loop exits as
soon as no further delimiter run exists, WITHOUT emitting the remaining
text as a segment. -/
def blockScanGo : Nat → List Char → List MarkdownBlock
  | 0, _ => []
  | fuel + 1, s =>
    match findTripleAny s with
    | none => []
    | some (i, d) =>
      let len := blockMatchLen d (s.drop i)
      let plain := s.take i
      let blk := (s.drop i).take len
      ⟨plain, "plain"⟩ :: ⟨blk, blockTypeOf blk⟩ :: blockScanGo fuel (s.drop (i + len))

/-- `markdownBlockList` as produced by the loop at lines 1299-1318. -/
def blockScan (s : List Char) : List MarkdownBlock := blockScanGo s.length s

/-- Reconstruction of the document from the block list (lines 1346-1350). -/
def reconstruct (bs : List MarkdownBlock) : List Char := (bs.map (·.text)).flatten

/-! ## Document title (getDocumentTitle, lines 1171-1184) -/

/-- Does a line satisfy `lineText.startsWith('#') && /^#{1,6} /.test(lineText)`?
This holds exactly when the maximal leading run of `'#'` has length 1..6 and
is followed by a space. -/
def isAtxTitleLine (l : List Char) : Bool :=
  let k := (l.takeWhile (· = '#')).length
  decide (1 ≤ k) && decide (k ≤ 6) && decide ((l.drop k).take 1 = [' '])

/-- Remainder after an HTML comment closer `-->`, if one occurs in `cs`
(searching left to right), for `replace(/<!--(.*?)-->/g, '')`. -/
def commentClose : List Char → Option (List Char)
  | '-' :: '-' :: '>' :: rest => some rest
  | _ :: cs => commentClose cs
  | [] => none

/-- Delete every `<!-- ... -->` region, lazily matched, left to right, as
`replace(/<!--(.*?)-->/g, '')` does.  Fuel = input length suffices since
every step consumes at least one character. -/
def stripCommentsGo : Nat → List Char → List Char
  | 0, l => l
  | fuel + 1, l =>
    match l with
    | '<' :: '!' :: '-' :: '-' :: rest =>
      match commentClose rest with
      | some r => stripCommentsGo fuel r
      | none => '<' :: stripCommentsGo fuel ('!' :: '-' :: '-' :: rest)
    | c :: cs => c :: stripCommentsGo fuel cs
    | [] => []

def stripComments (l : List Char) : List Char := stripCommentsGo l.length l

/-- `replace(/^#+/, '')`: drop the maximal leading run of `'#'`. -/
def dropLeadingHashes (l : List Char) : List Char := l.dropWhile (· = '#')

/-- `replace(/#+$/, '')`: drop the maximal trailing run of `'#'`. -/
def dropTrailingHashes (l : List Char) : List Char :=
  (l.reverse.dropWhile (· = '#')).reverse

/-- Title cleanup applied to the found line (lines 1178-1179):
comment removal, then `trim`, strip leading `#`s, strip trailing `#`s, `trim`. -/
def titleOfLine (l : List Char) : List Char :=
  jsTrim (dropTrailingHashes (dropLeadingHashes (jsTrim (stripComments l))))

/-- `getDocumentTitle`: first line of the raw text (split at `\n`/`\r`)
matching the ATX test, cleaned up; `"Untitled"` when no line matches.
The scan runs over every line of the document, with no exclusion of fenced
or callout regions. -/
def getDocumentTitle (text : List Char) : List Char :=
  match (splitTermChars text).find? isAtxTitleLine with
  | some l => titleOfLine l
  | none => "Untitled".data

/-! ## Table-of-contents input (buildHtml, lines 1215-1223)

`markdownText.replace(/^```[\s\S]*?```/g, '')` followed by
`.replace(/^:::[\s\S]*?:::/g, '')`.  Neither regex has the `m` flag, so
`^` anchors only at position 0 of the whole text: each replace removes at
most one block, and only when the text begins with the delimiter. -/

/-- Index of the first occurrence of three consecutive `c`s. -/
def findTriple (c : Char) : List Char → Option Nat
  | [] => none
  | x :: xs =>
    if x = c && decide (xs.take 2 = [c, c]) then some 0
    else (findTriple c xs).map (· + 1)

/-- `replace(/^ccc[\s\S]*?ccc/, '')` for a delimiter character `c`:
if the text starts with `ccc` and another `ccc` occurs later, remove
through the end of that first later occurrence. -/
def stripLeadingDelim (c : Char) (s : List Char) : List Char :=
  match s with
  | a :: b :: d :: rest =>
    if a = c && b = c && d = c then
      match findTriple c rest with
      | some j => rest.drop (j + 3)
      | none => s
    else s
  | _ => s

/-- Does a line pass the heading filter `/^#{2,6} /.test(lineText)`? -/
def isH2to6 (l : List Char) : Bool :=
  let k := (l.takeWhile (· = '#')).length
  decide (2 ≤ k) && decide (k ≤ 6) && decide ((l.drop k).take 1 = [' '])

/-- `tocStringList` (lines 1215-1223): strip a leading backtick block, then
a leading colon block, split on `\n`/`\r`, keep the `^#{2,6} ` lines, and
prepend the synthetic `"# " ++ title` line. -/
def tocStringList (title text : List Char) : List (List Char) :=
  ('#' :: ' ' :: title) ::
    (splitTermChars (stripLeadingDelim ':' (stripLeadingDelim '`' text))).filter isH2to6

/-! ## Heading tree builder (buildHtml, lines 1225-1257)

The source walks the flat `tocStringList`, creating one `headerObject` per
line and wiring `children` through a mutable array `tocStack` indexed by
`headerLevel`.  Mutation is modelled by an arena: nodes live in a list,
`children` holds arena indices, and `tocStack` holds `Option` entries so
that JS array holes (`undefined` slots) are represented exactly.  The JS
statement `parent.children.push(headerObject)` on an `undefined` parent
throws a `TypeError`; the embedding returns `none` at that point. -/

/-- Percent-encoding of one byte as `%HH` (uppercase hex), as
`encodeURIComponent` emits. -/
def hexDigit (n : Nat) : Char :=
  if n < 10 then Char.ofNat ('0'.toNat + n) else Char.ofNat ('A'.toNat + (n - 10))

/-- UTF-8 bytes of a code point. -/
def utf8Bytes (n : Nat) : List Nat :=
  if n < 0x80 then [n]
  else if n < 0x800 then [0xC0 + n / 64, 0x80 + n % 64]
  else if n < 0x10000 then [0xE0 + n / 4096, 0x80 + n / 64 % 64, 0x80 + n % 64]
  else [0xF0 + n / 262144, 0x80 + n / 4096 % 64, 0x80 + n / 64 % 64, 0x80 + n % 64]

/-- Characters `encodeURIComponent` leaves unescaped. -/
def uriUnreserved (c : Char) : Bool :=
  ('a' ≤ c && c ≤ 'z') || ('A' ≤ c && c ≤ 'Z') || ('0' ≤ c && c ≤ '9') ||
    c = '-' || c = '_' || c = '.' || c = '!' || c = '~' || c = '*' || c = '\'' ||
    c = '(' || c = ')'

/-- `encodeURIComponent` on a character list. -/
def encodeURIComponent (l : List Char) : List Char :=
  l.flatMap fun c =>
    if uriUnreserved c then [c]
    else (utf8Bytes c.toNat).flatMap fun b => ['%', hexDigit (b / 16), hexDigit (b % 16)]

/-- `headerText` of a heading line (line 1234): strip leading `#`s, strip
trailing `#`s, `trim`. -/
def headerTextOf (l : List Char) : List Char :=
  jsTrim (dropTrailingHashes (dropLeadingHashes l))

/-- `headerId` (line 1235): spaces to hyphens, then lowercased. -/
def headerIdOf (t : List Char) : List Char :=
  (t.map fun c => if c = ' ' then '-' else c).map asciiLower

/-- `headerIdEncoded` (line 1237): backticks removed, then percent-encoded. -/
def headerIdEncodedOf (i : List Char) : List Char :=
  encodeURIComponent (i.filter (· ≠ '`'))

/-- One `headerObject` in the arena; `children` are arena indices. -/
structure TocHeaderObject where
  header : String
  headerLevel : Nat
  headerText : String
  headerId : String
  headerIdEncoded : String
  children : List Nat
deriving Repr, DecidableEq

/-- Builder state: node arena, root list (`tocString`), stack (`tocStack`)
with `none` standing for a JS hole/`undefined` slot. -/
structure TocState where
  arena : List TocHeaderObject
  tocString : List Nat
  tocStack : List (Option Nat)
deriving Repr, DecidableEq

/-- JS array element assignment `a[i] = v`: overwrite when `i` is in range,
otherwise extend, filling any gap with holes. -/
def jsSetAt (l : List (Option Nat)) (i : Nat) (v : Nat) : List (Option Nat) :=
  if i < l.length then l.set i (some v)
  else l ++ List.replicate (i - l.length) none ++ [some v]

/-- Process one heading line (loop body, lines 1231-1256).  Returns `none`
when the JS code would throw (`parent` is `undefined` because
`tocStack[headerLevel - 2]` is unset or out of range). -/
def tocStep (st : TocState) (l : List Char) : Option TocState :=
  let headerLevel := (l.takeWhile (· = '#')).length
  let headerText := headerTextOf l
  let headerId := headerIdOf headerText
  let node : TocHeaderObject :=
    ⟨⟨l⟩, headerLevel, ⟨headerText⟩, ⟨headerId⟩, ⟨headerIdEncodedOf headerId⟩, []⟩
  let idx := st.arena.length
  if headerLevel = 1 then
    some ⟨st.arena ++ [node], st.tocString ++ [idx], [some idx]⟩
  else
    match (if 2 ≤ headerLevel then st.tocStack.getD (headerLevel - 2) none else none) with
    | none => none
    | some p =>
      match st.arena.get? p with
      | none => none
      | some parent =>
        some ⟨(st.arena.set p { parent with children := parent.children ++ [idx] }) ++ [node],
              st.tocString,
              jsSetAt st.tocStack (headerLevel - 1) idx⟩

/-- Run the builder over the flat heading list (lines 1227-1257): with two
or fewer lines the tree is empty; otherwise fold `tocStep`, propagating a
thrown `TypeError` as `none`. -/
def buildTocState (lines : List (List Char)) : Option TocState :=
  if lines.length ≤ 2 then some ⟨[], [], []⟩
  else lines.foldlM tocStep ⟨[], [], []⟩

/-- A materialised heading tree node. -/
inductive TocTree where
  | node (header : String) (headerLevel : Nat) (headerText : String)
         (headerId : String) (headerIdEncoded : String) (children : List TocTree)
deriving Repr

/-- Read a tree out of the arena.  Children indices are always created
after their parent, so fuel `arena.length + 1` suffices. -/
def extractTree (arena : List TocHeaderObject) : Nat → Nat → Option TocTree
  | 0, _ => none
  | fuel + 1, idx =>
    match arena.get? idx with
    | none => none
    | some e =>
      (e.children.mapM (extractTree arena fuel)).map fun cs =>
        .node e.header e.headerLevel e.headerText e.headerId e.headerIdEncoded cs

/-- The forest `tocString` as trees; `none` when building crashed. -/
def buildTocTrees (lines : List (List Char)) : Option (List TocTree) :=
  (buildTocState lines).bind fun st =>
    st.tocString.mapM (extractTree st.arena (st.arena.length + 1))

/-! ## Image reference rewriter (buildHtml, lines 1319-1342)

`imgRegex = /^!\[([^\]]*)\]\((?!\.\/TOBE_BASE64_IMGPATH_)([^)]+)(?:\s*=\s*(\d+)x(\d+))?\)$/gm`
is run in a `while (exec)` loop per plain/callout block, splicing each
eligible match in place.  The embedding reproduces the loop's operational
semantics on positions:

* with the `m` flag, `^` lets a match start only at position 0 or right
  after a `'\n'`/`'\r'`, and `$` requires the character after the `')'` to
  be a terminator (or the end of input);
* the negated classes `[^\]]` and `[^)]` DO match line terminators, so a
  match may span several lines whenever the alt or src text contains one;
* `([^)]+)` is greedy and the sizing group can match empty, so group 2 is
  the entire parenthesised text up to the first `')'`, and the match fails
  at this start position when that `')'` is not followed by a line end;
* the negative lookahead sits directly after `\(`, so the regex fails when
  the parenthesised text starts with `./TOBE_BASE64_IMGPATH_`;
* `exec` (the `g` flag) resumes searching at `lastIndex`, the end of the
  previous match in the OLD text; after an in-place splice this position
  is kept unchanged, so content of a multi-line match that lands before it
  is skipped for the rest of the pass;
* each iteration consumes a fresh `^` position at or after `lastIndex`,
  and splicing preserves the number of line terminators, so the loop runs
  at most one-plus-the-terminator-count times: fuel `length + 1` is always
  sufficient. -/

def placeholderPre : List Char := "./TOBE_BASE64_IMGPATH_".data

def placeholderPost : List Char := "_TO_BE_BASE64_IMGPATH".data

/-- The replacement text `![${imgAlt}](./TOBE_BASE64_IMGPATH_${imgSrc}_TO_BE_BASE64_IMGPATH)`
(line 1334). -/
def placeholderLine (alt src : List Char) : List Char :=
  '!' :: '[' :: alt ++ ']' :: '(' :: placeholderPre ++ src ++ placeholderPost ++ [')']

/-- Is `src` remote or inline data (the eligibility test at line 1333)? -/
def isRemoteSrc (src : List Char) : Bool :=
  "http://".data.isPrefixOf src || "https://".data.isPrefixOf src ||
    "data:image/".data.isPrefixOf src || "data:application/".data.isPrefixOf src

/-- The multiline `$` assertion on the text remaining after the `')'`. -/
def multilineDollar : List Char → Bool
  | [] => true
  | c :: _ => isTerm c

/-- Can `^` match at position `p` of `t` (position 0 or preceded by a
line terminator)? -/
def isLineStart (t : List Char) (p : Nat) : Bool :=
  p = 0 ||
    match t.get? (p - 1) with
    | some c => isTerm c
    | none => false

/-- Attempt of `imgRegex` (minus the `^` anchor, checked by the caller) at
position `p` of `t`: `some (endPos, alt, src)` on success.  `alt` is the
run of non-`']'` characters, `src` the nonempty run of non-`')'`
characters after the lookahead-checked `'('`; both runs may cross line
terminators. -/
def imgMatchAt (t : List Char) (p : Nat) : Option (Nat × List Char × List Char) :=
  let u := t.drop p
  if u.take 2 = ['!', '['] then
    let r := u.drop 2
    let alt := r.takeWhile (· ≠ ']')
    let r1 := r.dropWhile (· ≠ ']')
    if r1.take 2 = [']', '('] then
      let r2 := r1.drop 2
      if placeholderPre.isPrefixOf r2 then none
      else
        let src := r2.takeWhile (· ≠ ')')
        if src = [] then none
        else
          let r3 := r2.dropWhile (· ≠ ')')
          if r3.take 1 = [')'] then
            if multilineDollar (r3.drop 1) then
              some (p + 2 + alt.length + 2 + src.length + 1, alt, src)
            else none
          else none
    else none
  else none

/-- Search for the first match at a `^` position, scanning `count`
candidate positions starting at `p` (exec's scan from `lastIndex`). -/
def findImgFrom (t : List Char) : Nat → Nat → Option (Nat × Nat × List Char × List Char)
  | 0, _ => none
  | count + 1, p =>
    if isLineStart t p then
      match imgMatchAt t p with
      | some (e, alt, src) => some (p, e, alt, src)
      | none => findImgFrom t count (p + 1)
    else findImgFrom t count (p + 1)

/-- `imgRegex.exec(t)` with `lastIndex = li`: the first match starting at
a position in `[li, t.length]`. -/
def findImgMatch (t : List Char) (li : Nat) : Option (Nat × Nat × List Char × List Char) :=
  findImgFrom t (t.length + 1 - li) li

/-- The `while ((imgMatch = imgRegex.exec(markdownTextTarget)) !== null)`
loop (lines 1329-1340): on an eligible match, splice in the placeholder
(`lastIndex` stays at the end of the match in the OLD text) and record the
src; on a remote/data match, advance without change. -/
def imgLoopGo : Nat → List Char → Nat → List Char × List (List Char)
  | 0, t, _ => (t, [])
  | fuel + 1, t, li =>
    match findImgMatch t li with
    | none => (t, [])
    | some (p, e, alt, src) =>
      if isRemoteSrc src then imgLoopGo fuel t e
      else
        let t2 := t.take p ++ placeholderLine alt src ++ t.drop e
        let rest := imgLoopGo fuel t2 e
        (rest.1, src :: rest.2)

/-- The full per-block rewrite: the loop starts with `lastIndex = 0` (a
preceding failed `exec` resets it) and cannot iterate more often than the
text has `^` positions, which `length + 1` bounds. -/
def imgRewriteBlock (t : List Char) : List Char × List (List Char) :=
  imgLoopGo (t.length + 1) t 0

/-! ## Output path derivation (exportPage, lines 1495-1502) -/

/-- Decompose `s` as `a ++ '.' :: w` with `w` a nonempty all-word suffix,
returning `a`.  This is where `/\.\w+?$/` matches: the lazy `\w+?` must
reach `$`, so the whole suffix after the dot must be word characters, and
at most one dot qualifies (a later dot would sit inside the word suffix),
making the leftmost match this unique one. -/
def extSplit : List Char → Option (List Char)
  | [] => none
  | c :: cs =>
    match extSplit cs with
    | some a => some (c :: a)
    | none =>
      if c = '.' && decide (cs ≠ []) && cs.all isWordChar then some [] else none

/-- `outPath.replace(/\.\w+?$/, '.html')` (line 1496). -/
def replaceTrailingExt (s : List Char) : List Char :=
  match extSplit s with
  | some a => a ++ ".html".data
  | none => s

/-- The drive letters the source's character class `[cdefghij]` covers. -/
def driveLetters : List Char := ['c', 'd', 'e', 'f', 'g', 'h', 'i', 'j']

/-- `outPath.replace(/^([cdefghij]):\\/, ...toUpperCase...)` (lines 1497-1499). -/
def driveFix (s : List Char) : List Char :=
  match s with
  | c :: ':' :: '\\' :: rest =>
    if driveLetters.contains c then c.toUpper :: ':' :: '\\' :: rest else s
  | _ => s

/-- JS `endsWith` as list suffix testing. -/
def endsWithL (l p : List Char) : Bool := decide (l.reverse.take p.length = p.reverse)

/-- The full output path derivation (lines 1496-1502): replace a trailing
extension with `.html`, normalise a `[cdefghij]:\` drive prefix to upper
case, and append `.html` when the result still lacks that suffix. -/
def derivedOutPath (s : List Char) : List Char :=
  let a := replaceTrailingExt s
  let b := driveFix a
  if endsWithL b ".html".data then b else b ++ ".html".data

/-! ## Formatting fallback (buildHtml, lines 1447-1466)

The prettier `format` call is external; it is modelled as a fallible
function argument.  The `catch` branch surfaces one warning built from the
title and the thrown error's message with ANSI colour sequences
(`/\u001b\[\d+m/g`) removed, and falls back to the unformatted string. -/

/-- Remainder after a `[digits+]m` ANSI suffix, if the text starts with
one (the part of `/\u001b\[\d+m/` after the escape character). -/
def ansiTail (cs : List Char) : Option (List Char) :=
  match cs with
  | '[' :: r =>
    let d := r.takeWhile Char.isDigit
    if d.isEmpty then none
    else
      match r.drop d.length with
      | 'm' :: rest => some rest
      | _ => none
  | _ => none

/-- `replace(/\u001b\[\d+m/g, '')`: remove every colour escape, scanning
left to right.  Fuel = length suffices (ansi matches consume at least two
characters). -/
def stripAnsiGo : Nat → List Char → List Char
  | 0, l => l
  | fuel + 1, l =>
    match l with
    | [] => []
    | c :: cs =>
      if c = '\x1b' then
        match ansiTail cs with
        | some r => stripAnsiGo fuel r
        | none => c :: stripAnsiGo fuel cs
      else c :: stripAnsiGo fuel cs

def stripAnsi (l : List Char) : List Char := stripAnsiGo l.length l

/-- The warning text built in the catch branch (line 1463). -/
def formatWarning (title msg : String) : String :=
  "🐶 " ++ title ++ " をhtml化しましたが、htmlとしてparseできないhtmlになっています 🐶"
    ++ "\n\n" ++ String.mk (stripAnsi msg.data)

/-- The `try { html = await format(zennHtml, ...) } catch` stage: returns
the final html together with the warnings surfaced by this stage. -/
def formatStage (format : String → Except String String) (title zennHtml : String) :
    String × List String :=
  match format zennHtml with
  | .ok h => (h, [])
  | .error e => (zennHtml, [formatWarning title e])

/-! ## Folder tree and navigation renderer (exportWorkspace, lines 1527-1697)

Paths are relative to the workspace root with `'/'` as separator (the
POSIX value of `path.sep`).  `path.posix.dirname` and `path.posix.relative`
are embedded for the dot-free relative paths this code produces. -/

structure FileObject where
  fileName : String
  title : String
  filePath : String
deriving Repr, DecidableEq

inductive FolderObject where
  | mk (folderPath folderName folderNameAlias : String)
       (folderObjectList : List FolderObject)
       (fileObjectList : List FileObject)
deriving Repr

def FolderObject.folderPath : FolderObject → String
  | .mk p _ _ _ _ => p

def FolderObject.folderName : FolderObject → String
  | .mk _ n _ _ _ => n

def FolderObject.folderNameAlias : FolderObject → String
  | .mk _ _ a _ _ => a

def FolderObject.folderObjectList : FolderObject → List FolderObject
  | .mk _ _ _ l _ => l

def FolderObject.fileObjectList : FolderObject → List FileObject
  | .mk _ _ _ _ f => f

/-- `path.basename` on a `'/'`-separated relative path. -/
def basenameP (s : String) : String :=
  ⟨(splitChar '/' s.data).getLastD []⟩

/-- `path.posix.dirname` for relative inputs: everything before the last
separator, `"."` when there is none. -/
def dirnameP (s : String) : String :=
  match (splitChar '/' s.data).dropLast with
  | [] => "."
  | segs => ⟨List.intercalate ['/'] segs⟩

/-- Path segments as `path.posix.relative`'s resolution step sees them:
empty and `"."` segments disappear. -/
def relSegs (s : String) : List (List Char) :=
  (splitChar '/' s.data).filter fun seg => seg ≠ [] && seg ≠ ['.']

/-- Strip the common prefix of two segment lists. -/
def dropCommon : List (List Char) → List (List Char) → List (List Char) × List (List Char)
  | a :: as, b :: bs =>
    if a = b then dropCommon as bs else (a :: as, b :: bs)
  | as, bs => (as, bs)

/-- `path.posix.relative(from, to)` for dot-free relative paths: one `..`
per remaining `from` segment, then the remaining `to` segments. -/
def posixRelative (f t : String) : String :=
  let (fr, tr) := dropCommon (relSegs f) (relSegs t)
  ⟨List.intercalate ['/'] ((fr.map fun _ => ['.', '.']) ++ tr)⟩

/-- `path.join(folderPath, folderName)` for the two shapes this code
produces (empty root path or a relative path). -/
def pjoin (a b : String) : String :=
  if a = "" then b else a ++ "/" ++ b

/-- Insert one document into the folder tree: the segment walk of lines
1600-1623, with the terminal segment appended as a `FileObject` and
missing intermediate folders created on first encounter. -/
def insertPath (folder : FolderObject) (segs : List String)
    (fileName title filePath : String) : FolderObject :=
  match folder, segs with
  | f, [] => f
  | .mk p n a fl fs, [_] => .mk p n a fl (fs ++ [⟨fileName, title, filePath⟩])
  | .mk p n a fl fs, s :: rest =>
    match fl.find? (fun fo => fo.folderName = s) with
    | some child =>
      let updated := insertPath child rest fileName title filePath
      let replaced :=
        (fl.foldl (fun (acc : List FolderObject × Bool) fo =>
          if !acc.2 && fo.folderName = s then (acc.1 ++ [updated], true)
          else (acc.1 ++ [fo], acc.2)) ([], false)).1
      .mk p n a replaced fs
    | none =>
      let fresh : FolderObject := .mk (pjoin p s) s s [] []
      .mk p n a (fl ++ [insertPath fresh rest fileName title filePath]) fs

/-- Build the whole folder tree from the sorted relative path list with
each document's resolved title (lines 1594-1624). -/
def buildFolderTree (rootName : String) (files : List (String × String)) : FolderObject :=
  files.foldl
    (fun acc pt => insertPath acc ((splitChar '/' pt.1.data).map (⟨·⟩))
      (basenameP pt.1) pt.2 pt.1)
    (.mk "" rootName "root" [] [])

/-- `fileHref` (line 1648): target-relative path, backslashes to slashes,
trailing `.md` to `.html`. -/
def fileHrefOf (target : String) (fo : FileObject) : String :=
  let rel := posixRelative (dirnameP target) fo.filePath
  let slashed : String := ⟨rel.data.map fun c => if c = '\\' then '/' else c⟩
  if endsWithL slashed.data ".md".data
  then ⟨slashed.data.take (slashed.data.length - 3) ++ ".html".data⟩
  else slashed

/-- One file's list item (lines 1644-1656). -/
def fileLi (target : String) (fo : FileObject) : String :=
  let href := fileHrefOf target fo
  if target = fo.filePath then
    "<li class=\"file active\"><a href=\"" ++ href ++ "\">" ++ fo.title ++ "</a></li>"
  else
    "<li class=\"file\"><a href=\"" ++ href ++ "\">" ++ fo.title ++ "</a></li>"

mutual

/-- `recursiveFileNavigationHtmlFactory`'s inner recursion (lines
1639-1679): files first, then the folder loop. -/
def recNavGo : FolderObject → String → String → String
  | .mk _ _ _ folderObjectList fileObjectList, relativeTargetFilePath, acc =>
    let acc1 := fileObjectList.foldl
      (fun a fo => a ++ fileLi relativeTargetFilePath fo) acc
    recNavFolders folderObjectList relativeTargetFilePath acc1

/-- The folder loop at lines 1660-1677, in order. -/
def recNavFolders : List FolderObject → String → String → String
  | [], _, acc => acc
  | child :: rest, relativeTargetFilePath, acc =>
    let relativeTargetFolderPath := dirnameP relativeTargetFilePath
    let folderHref := posixRelative (dirnameP relativeTargetFilePath) child.folderPath
    let label :=
      if child.folderPath = relativeTargetFolderPath then
        "<li class=\"folder active\"><a href=\"" ++ folderHref ++ "\">"
          ++ child.folderNameAlias ++ "</a>"
      else
        "<li class=\"folder\"><a href=\"" ++ folderHref ++ "\">"
          ++ child.folderNameAlias ++ "</a>"
    let inner := recNavGo child relativeTargetFilePath ""
    recNavFolders rest relativeTargetFilePath
      (acc ++ label ++ "<ul>" ++ inner ++ "</ul>" ++ "</li>")

end

/-- The renderer entry point: called with the shared tree, one target path
and the empty accumulator (line 1682). -/
def recursiveFileNavigationHtml (folder : FolderObject) (target : String) : String :=
  recNavGo folder target ""

/-- The folder tree of spec test 6: sorted paths
`["a/b/y.md", "a/x.md", "z.md"]` with titles Y, X, Z. -/
def c5Tree : FolderObject :=
  buildFolderTree "ws" [("a/b/y.md", "Y"), ("a/x.md", "X"), ("z.md", "Z")]

/-! # Helper lemmas -/

theorem takeWhile_append_not {p : Char → Bool} {A : List Char}
    (hA : ∀ a ∈ A, p a = true) {b : Char} (hb : p b = false) (t : List Char) :
    (A ++ b :: t).takeWhile p = A := by
  induction A with
  | nil => simp [List.takeWhile_cons, hb]
  | cons x xs ih =>
    simp only [List.cons_append, List.takeWhile_cons, hA x (by simp)]
    simpa using ih fun a ha => hA a (by simp [ha])

theorem dropWhile_append_not {p : Char → Bool} {A : List Char}
    (hA : ∀ a ∈ A, p a = true) {b : Char} (hb : p b = false) (t : List Char) :
    (A ++ b :: t).dropWhile p = b :: t := by
  induction A with
  | nil => simp [List.dropWhile_cons, hb]
  | cons x xs ih =>
    simp only [List.cons_append, List.dropWhile_cons, hA x (by simp)]
    simpa using ih fun a ha => hA a (by simp [ha])

theorem endsWithL_append (l p : List Char) : endsWithL (l ++ p) p = true := by
  have h : p.length = p.reverse.length := (List.length_reverse p).symm
  simp only [endsWithL, List.reverse_append, h, List.take_left, decide_eq_true_eq]

/-! ## Lemmas for the leading-fence strip (claim C4) -/

theorem findTriple_append {c : Char} {b : List Char} (h : c ∉ b) (rest : List Char) :
    findTriple c (b ++ c :: c :: c :: rest) = some b.length := by
  induction b with
  | nil => simp [findTriple]
  | cons x xs ih =>
    have hx : x ≠ c := fun e => h (e ▸ List.mem_cons_self x xs)
    have ihx := ih fun hm => h (List.mem_cons_of_mem x hm)
    simp [findTriple, hx, ihx]

theorem stripLeadingDelim_append {c : Char} {b : List Char} (h : c ∉ b)
    (rest : List Char) :
    stripLeadingDelim c (c :: c :: c :: (b ++ c :: c :: c :: rest)) = rest := by
  simp only [stripLeadingDelim, findTriple_append h rest]
  simp [List.drop_append]

theorem stripLeadingDelim_eq_self {c : Char} {s : List Char}
    (h : s.take 3 ≠ [c, c, c]) : stripLeadingDelim c s = s := by
  cases s with
  | nil => rfl
  | cons a s1 =>
    cases s1 with
    | nil => rfl
    | cons b s2 =>
      cases s2 with
      | nil => rfl
      | cons d r =>
        have hc : ¬(a = c ∧ b = c ∧ d = c) := by
          rintro ⟨rfl, rfl, rfl⟩; exact h rfl
        simp only [stripLeadingDelim]
        rw [if_neg (by simpa using hc)]

/-! ## Lemmas for the rewrite loop (claim C7) -/

/-- A character list free of line terminators (one line's content). -/
def NoTerm (l : List Char) : Prop := ∀ c ∈ l, isTerm c = false

theorem noTerm_iff_all {l : List Char} :
    NoTerm l ↔ (l.all fun c => !isTerm c) = true := by
  simp [NoTerm, List.all_eq_true]

theorem noTerm_placeholderLine {alt src : List Char}
    (ha : NoTerm alt) (hs : NoTerm src) : NoTerm (placeholderLine alt src) := by
  rw [noTerm_iff_all] at ha hs ⊢
  simp only [placeholderLine, List.all_append, List.all_cons, ha, hs]
  decide

theorem imgMatchAt_some {t : List Char} {p e : Nat} {alt src : List Char}
    (h : imgMatchAt t p = some (e, alt, src)) :
    (∃ r4, t.drop p = '!' :: '[' :: (alt ++ ']' :: '(' :: (src ++ ')' :: r4)) ∧
        multilineDollar r4 = true ∧ e = p + 2 + alt.length + 2 + src.length + 1) ∧
    (∀ a ∈ alt, a ≠ ']') ∧ (∀ s ∈ src, s ≠ ')') ∧ src ≠ [] := by
  unfold imgMatchAt at h
  by_cases h0 : (t.drop p).take 2 = ['!', '[']
  · rw [if_pos h0] at h
    by_cases h1 : (((t.drop p).drop 2).dropWhile (· ≠ ']')).take 2 = [']', '(']
    · rw [if_pos h1] at h
      by_cases h2 : placeholderPre.isPrefixOf
          ((((t.drop p).drop 2).dropWhile (· ≠ ']')).drop 2) = true
      · rw [if_pos h2] at h; exact absurd h (by simp)
      · rw [if_neg h2] at h
        by_cases h3 : ((((t.drop p).drop 2).dropWhile (· ≠ ']')).drop 2).takeWhile (· ≠ ')')
            = ([] : List Char)
        · rw [if_pos h3] at h; exact absurd h (by simp)
        · rw [if_neg h3] at h
          by_cases h4 : (((((t.drop p).drop 2).dropWhile (· ≠ ']')).drop 2).dropWhile
              (· ≠ ')')).take 1 = [')']
          · rw [if_pos h4] at h
            by_cases h5 : multilineDollar ((((((t.drop p).drop 2).dropWhile
                (· ≠ ']')).drop 2).dropWhile (· ≠ ')')).drop 1) = true
            · rw [if_pos h5] at h
              obtain ⟨he, ha, hs⟩ :
                  p + 2 + (((t.drop p).drop 2).takeWhile (· ≠ ']')).length + 2 +
                      (((((t.drop p).drop 2).dropWhile (· ≠ ']')).drop 2).takeWhile
                        (· ≠ ')')).length + 1 = e ∧
                    ((t.drop p).drop 2).takeWhile (· ≠ ']') = alt ∧
                    ((((t.drop p).drop 2).dropWhile (· ≠ ']')).drop 2).takeWhile
                      (· ≠ ')') = src := by
                simpa using h
              subst ha
              subst hs
              refine ⟨⟨(((((t.drop p).drop 2).dropWhile (· ≠ ']')).drop 2).dropWhile
                  (· ≠ ')')).drop 1, ?_, h5, he.symm⟩, ?_, ?_, h3⟩
              · have e0 : t.drop p = (t.drop p).take 2 ++ (t.drop p).drop 2 :=
                  (List.take_append_drop 2 (t.drop p)).symm
                have e1 : (t.drop p).drop 2 =
                    ((t.drop p).drop 2).takeWhile (· ≠ ']') ++
                      ((t.drop p).drop 2).dropWhile (· ≠ ']') :=
                  (List.takeWhile_append_dropWhile ..).symm
                have e2 : ((t.drop p).drop 2).dropWhile (· ≠ ']') =
                    (((t.drop p).drop 2).dropWhile (· ≠ ']')).take 2 ++
                      (((t.drop p).drop 2).dropWhile (· ≠ ']')).drop 2 :=
                  (List.take_append_drop 2 _).symm
                have e3 : (((t.drop p).drop 2).dropWhile (· ≠ ']')).drop 2 =
                    ((((t.drop p).drop 2).dropWhile (· ≠ ']')).drop 2).takeWhile (· ≠ ')') ++
                      ((((t.drop p).drop 2).dropWhile (· ≠ ']')).drop 2).dropWhile (· ≠ ')') :=
                  (List.takeWhile_append_dropWhile ..).symm
                have e4 : ((((t.drop p).drop 2).dropWhile (· ≠ ']')).drop 2).dropWhile
                      (· ≠ ')') =
                    (((((t.drop p).drop 2).dropWhile (· ≠ ']')).drop 2).dropWhile
                        (· ≠ ')')).take 1 ++
                      (((((t.drop p).drop 2).dropWhile (· ≠ ']')).drop 2).dropWhile
                        (· ≠ ')')).drop 1 :=
                  (List.take_append_drop 1 _).symm
                conv_lhs => rw [e0, h0, e1, e2, h1, e3, e4, h4]
                simp
              · intro a ha2
                simpa using List.mem_takeWhile_imp ha2
              · intro s hs2
                simpa using List.mem_takeWhile_imp hs2
            · rw [if_neg h5] at h; exact absurd h (by simp)
          · rw [if_neg h4] at h; exact absurd h (by simp)
    · rw [if_neg h1] at h; exact absurd h (by simp)
  · rw [if_neg h0] at h; exact absurd h (by simp)

theorem imgMatchAt_placeholder {alt src : List Char}
    (hA : ∀ a ∈ alt, a ≠ ']') :
    imgMatchAt (placeholderLine alt src) 0 = none := by
  have hline : placeholderLine alt src =
      '!' :: '[' :: (alt ++ ']' :: '(' ::
        (placeholderPre ++ (src ++ (placeholderPost ++ [')'])))) := by
    simp [placeholderLine, List.append_assoc]
  have hAq : ∀ a ∈ alt, (!decide (a = ']')) = true := by
    intro a ha; simpa using hA a ha
  have htw : List.dropWhile (fun x => !decide (x = ']'))
      (alt ++ ']' :: '(' :: (placeholderPre ++ (src ++ (placeholderPost ++ [')'])))) =
      ']' :: '(' :: (placeholderPre ++ (src ++ (placeholderPost ++ [')']))) :=
    dropWhile_append_not hAq (by decide) _
  have hpre : placeholderPre <+:
      placeholderPre ++ (src ++ (placeholderPost ++ [')'])) :=
    List.prefix_append ..
  simp [imgMatchAt, hline, htw, hpre]

theorem isLineStart_noTerm {t : List Char} (h : NoTerm t) (p : Nat) :
    isLineStart t p = decide (p = 0) := by
  cases p with
  | zero => simp [isLineStart]
  | succ q =>
    simp only [isLineStart, Nat.succ_sub_one]
    cases hg : t.get? q with
    | none => simp [hg]
    | some c =>
      have hc : isTerm c = false := h c (List.get?_mem hg)
      simp [hg, hc]

theorem findImgFrom_noTerm_pos {t : List Char} (h : NoTerm t) :
    ∀ count p : Nat, 1 ≤ p → findImgFrom t count p = none := by
  intro count
  induction count with
  | zero => intro p _; rfl
  | succ k ih =>
    intro p hp
    have hls : isLineStart t p = false := by
      rw [isLineStart_noTerm h]
      simp
      omega
    simp [findImgFrom, hls, ih (p + 1) (by omega)]

theorem findImgMatch_noTerm_pos {t : List Char} (h : NoTerm t) {li : Nat}
    (hli : 1 ≤ li) : findImgMatch t li = none :=
  findImgFrom_noTerm_pos h _ li hli

theorem findImgMatch_noTerm_zero {t : List Char} (h : NoTerm t) :
    findImgMatch t 0 = (imgMatchAt t 0).map fun q => (0, q.1, q.2.1, q.2.2) := by
  unfold findImgMatch
  rw [Nat.sub_zero]
  cases him : imgMatchAt t 0 with
  | none =>
    simp [findImgFrom, isLineStart, him, findImgFrom_noTerm_pos h t.length 1 (by omega)]
  | some q =>
    obtain ⟨e, alt, src⟩ := q
    simp [findImgFrom, isLineStart, him]

theorem imgLoopGo_none {t : List Char} {li : Nat}
    (hfind : findImgMatch t li = none) {fuel : Nat} (hf : 1 ≤ fuel) :
    imgLoopGo fuel t li = (t, []) := by
  cases fuel with
  | zero => omega
  | succ k => simp [imgLoopGo, hfind]

/-! ## Lemmas for the output path derivation (claim C8) -/

theorem extSplit_word_none {w : List Char} (h : ∀ c ∈ w, isWordChar c = true) :
    extSplit w = none := by
  induction w with
  | nil => rfl
  | cons c cs ih =>
    have hc : c ≠ '.' := by
      intro e
      have := h c (by simp)
      rw [e] at this
      exact absurd this (by decide)
    have ihc : extSplit cs = none := ih fun x hx => h x (by simp [hx])
    simp [extSplit, ihc, hc]

theorem extSplit_append {a w : List Char} (hw : w ≠ [])
    (hall : ∀ c ∈ w, isWordChar c = true) : extSplit (a ++ '.' :: w) = some a := by
  induction a with
  | nil =>
    simp [extSplit, extSplit_word_none hall, hw, List.all_eq_true.2 hall]
  | cons x xs ih =>
    simp [extSplit, ih]

/-! # Claims -/

/-- Claim C1 (evaluation at the failing input): the Block Scanner loop
never emits the remainder left after the last delimiter match, so
concatenating the segment texts does NOT reproduce the input.  On
`"a\n```\nb\n```\nc"` the scan stops after the fenced block and the suffix
`"\nc"` is lost. -/
theorem c1_block_scan_not_roundtrip :
    blockScan "a\n```\nb\n```\nc".data =
      [⟨"a\n".data, "plain"⟩, ⟨"```\nb\n```".data, "code"⟩] ∧
    reconstruct (blockScan "a\n```\nb\n```\nc".data) ≠ "a\n```\nb\n```\nc".data := by
  exact ⟨rfl, by decide⟩

/-- Claim C2 (evaluation at the failing input): on a text with no
three-character delimiter run the scanner's regex never matches, the loop
body never runs, and the block list is empty — not the single Plain
segment the claim describes. -/
theorem c2_no_delimiter_no_plain_segment :
    findTripleAny "hello".data = none ∧
    blockScan "hello".data = [] ∧
    blockScan "hello".data ≠ [⟨"hello".data, "plain"⟩] := by
  exact ⟨rfl, rfl, by decide⟩

/-- Claim C3 (evaluation at the failing input): with heading lines
`["# T", "### A", "## B"]` (a level-3 heading directly after the synthetic
level-1 title) the builder reads `tocStack[1]`, which is unset, and the
subsequent `parent.children.push` throws a `TypeError`; the embedded
builder accordingly returns `none` instead of a defined tree. -/
theorem c3_deep_heading_crashes :
    buildTocState ["# T".data, "### A".data, "## B".data] = none ∧
    buildTocTrees ["# T".data, "### A".data, "## B".data] = none := by
  exact ⟨rfl, rfl⟩

/-- Claim C6: building from `["# Title", "## A", "### A1", "## B"]` yields
exactly one root ("Title") with children "A" then "B", where "A" has the
single child "A1" and "B" none; and the slug id for heading text
`"Foo Bar"` is `"foo-bar"`. -/
theorem c6_heading_tree_example :
    buildTocTrees ["# Title".data, "## A".data, "### A1".data, "## B".data] =
      some [.node "# Title" 1 "Title" "title" "title"
        [.node "## A" 2 "A" "a" "a" [.node "### A1" 3 "A1" "a1" "a1" []],
         .node "## B" 2 "B" "b" "b" []]] ∧
    headerIdOf "Foo Bar".data = "foo-bar".data := by
  exact ⟨rfl, rfl⟩

/-- Claim C4 counterexample: in the document `"x\n```\n## H\n```"` the
heading line `"## H"` occurs only inside the fenced segment of the block
scan, yet it still reaches the tree-builder input, because the
ToC-stripping regexes `^```...```" / `^:::...:::` are anchored to the
start of the whole text and the fence here does not start at position 0. -/
theorem c4_fenced_heading_contributes :
    blockScan "x\n```\n## H\n```".data =
      [⟨"x\n".data, "plain"⟩, ⟨"```\n## H\n```".data, "code"⟩] ∧
    getDocumentTitle "x\n```\n## H\n```".data = "H".data ∧
    tocStringList "H".data "x\n```\n## H\n```".data = ["# H".data, "## H".data] := by
  exact ⟨rfl, rfl, rfl⟩

/-- Claim C4 as amended: only a fenced block at the very start of the
document is stripped before heading extraction (the strip regexes anchor
`^` to the start of the whole text).  For a document beginning with a
terminated backtick fence whose body contains no backtick, and whose
remainder does not itself begin with a fence opener, the ToC input equals
the ToC input of the remainder alone: heading markers inside the leading
fence never contribute, the synthetic `"# " ++ title` line is the sole
depth-1 entry, and all other entries are `^#{2,6} ` lines of the
remainder. -/
theorem c4_leading_fence_stripped (title b rest : List Char)
    (h1 : '`' ∉ b) (h2 : rest.take 3 ≠ ['`', '`', '`']) :
    tocStringList title ("```".data ++ b ++ "```".data ++ rest) =
      tocStringList title rest := by
  have hshape : "```".data ++ b ++ "```".data ++ rest =
      '`' :: '`' :: '`' :: (b ++ '`' :: '`' :: '`' :: rest) := by
    simp [List.append_assoc]
  rw [tocStringList, tocStringList, hshape, stripLeadingDelim_append h1,
    stripLeadingDelim_eq_self h2]

/-- Claim C4 amended witness: stripping the leading fence of
`"```\n## H\n```x"` leaves the ToC input of `"x"`. -/
theorem c4_leading_fence_stripped_witness :
    tocStringList "T".data ("```".data ++ "\n## H\n".data ++ "```".data ++ "x".data) =
      tocStringList "T".data "x".data :=
  c4_leading_fence_stripped "T".data "\n## H\n".data "x".data (by decide) (by decide)

set_option maxRecDepth 8000 in
/-- Claim C5 counterexample: rendering the test-6 tree for target
`"a/b/y.md"` marks only the direct parent folder `"a/b"` active; the
ancestor folder `"a"` is rendered with class `"folder"`, not
`"folder active"` as the claim asserts. -/
theorem c5_folder_a_not_active :
    hasSub (recursiveFileNavigationHtml c5Tree "a/b/y.md").data
      "<li class=\"folder\"><a href=\"..\">a</a>".data = true ∧
    hasSub (recursiveFileNavigationHtml c5Tree "a/b/y.md").data
      "<li class=\"folder active\"><a href=\"..\">a</a>".data = false := by
  exact ⟨rfl, rfl⟩

set_option maxRecDepth 8000 in
/-- Claim C5 as amended: for target `"a/b/y.md"` the renderer marks file
`"y.md"` active and folder `"a/b"` (the target's directory) active, leaves
`"x.md"`, `"z.md"` and folder `"a"` inactive, and computes href
`"../../z.html"` for `"z.md"`; the whole rendered markup is the literal
below. -/
theorem c5_navigation_render :
    c5Tree = .mk "" "ws" "root"
      [.mk "a" "a" "a"
        [.mk "a/b" "b" "b" [] [⟨"y.md", "Y", "a/b/y.md"⟩]]
        [⟨"x.md", "X", "a/x.md"⟩]]
      [⟨"z.md", "Z", "z.md"⟩] ∧
    recursiveFileNavigationHtml c5Tree "a/b/y.md" =
      "<li class=\"file\"><a href=\"../../z.html\">Z</a></li><li class=\"folder\"><a href=\"..\">a</a><ul><li class=\"file\"><a href=\"../x.html\">X</a></li><li class=\"folder active\"><a href=\"\">b</a><ul><li class=\"file active\"><a href=\"y.html\">Y</a></li></ul></li></ul></li>" := by
  exact ⟨rfl, rfl⟩

/-- The counterexample block text for claim C7: an image reference whose
src spans a line break (`[^)]` matches `'\n'`), followed by an embedded
single-line reference. -/
def c7Text : List Char :=
  "![a](x\n![q](rAAAAAAAAAAAAAAAAAAAAAAAAAAAAAA)".data

set_option maxRecDepth 200000 in
/-- Claim C7 counterexample: the rewrite step is NOT idempotent.  On
`c7Text` the first pass matches from position 0 across the line break
(src `"x\n![q](rAAA...A"`), splices in the placeholder, and leaves
`lastIndex` beyond the start of the embedded second line, which is
therefore skipped; a second run of the step matches that line (its src
`"rAAA...A_TO_BE_BASE64_IMGPATH"` does not start with the placeholder
prefix), performs an additional replacement and records an additional
src entry. -/
theorem c7_multiline_match_not_idempotent :
    imgRewriteBlock c7Text =
      ("![a](./TOBE_BASE64_IMGPATH_x\n![q](rAAAAAAAAAAAAAAAAAAAAAAAAAAAAAA_TO_BE_BASE64_IMGPATH)".data,
        ["x\n![q](rAAAAAAAAAAAAAAAAAAAAAAAAAAAAAA".data]) ∧
    (imgRewriteBlock (imgRewriteBlock c7Text).1).2 =
      ["rAAAAAAAAAAAAAAAAAAAAAAAAAAAAAA_TO_BE_BASE64_IMGPATH".data] ∧
    (imgRewriteBlock (imgRewriteBlock c7Text).1).1 ≠ (imgRewriteBlock c7Text).1 := by
  refine ⟨rfl, rfl, by decide⟩

/-- Claim C7 as amended: the rewrite step is idempotent on every block
text in which no match spans a line break — proved here for texts without
line terminators, where spanning is impossible: a second application
performs no replacement and records no src, because a rewritten text is a
single placeholder line whose parenthesised text starts with
`./TOBE_BASE64_IMGPATH_` and is refused by the negative lookahead, and an
untouched text is decided exactly as before.  (For a src spanning a line
break the property fails; see the counterexample.) -/
theorem c7_single_line_rewrite_idempotent (t : List Char) (h : NoTerm t) :
    imgRewriteBlock (imgRewriteBlock t).1 = ((imgRewriteBlock t).1, []) := by
  cases him : imgMatchAt t 0 with
  | none =>
    have hfind : findImgMatch t 0 = none := by
      rw [findImgMatch_noTerm_zero h, him]; rfl
    have h1 : imgRewriteBlock t = (t, []) := imgLoopGo_none hfind (by omega)
    simp [h1]
  | some q =>
    obtain ⟨e, alt, src⟩ := q
    obtain ⟨⟨r4, hshape, hdollar, he⟩, hA, hS, hne⟩ := imgMatchAt_some him
    rw [List.drop_zero] at hshape
    have hr4 : r4 = [] := by
      cases r4 with
      | nil => rfl
      | cons c r5 =>
        exfalso
        have hc : isTerm c = true := by simpa [multilineDollar] using hdollar
        have hmem : c ∈ t := by rw [hshape]; simp
        rw [h c hmem] at hc
        exact absurd hc (by simp)
    subst hr4
    have hfind : findImgMatch t 0 = some (0, e, alt, src) := by
      rw [findImgMatch_noTerm_zero h, him]; rfl
    have hlen : t.length = alt.length + src.length + 5 := by
      rw [hshape]; simp; omega
    have he' : e = t.length := by omega
    have he1 : 1 ≤ e := by
      have := List.length_pos.2 hne
      omega
    have halt : NoTerm alt := fun x hx => h x (by rw [hshape]; simp [hx])
    have hsrc : NoTerm src := fun x hx => h x (by rw [hshape]; simp [hx])
    by_cases hr : isRemoteSrc src = true
    · have hinner : imgLoopGo t.length t e = (t, []) :=
        imgLoopGo_none (findImgMatch_noTerm_pos h he1) (by omega)
      have hpass : imgRewriteBlock t = (t, []) := by
        unfold imgRewriteBlock
        simp [imgLoopGo, hfind, hr, hinner]
      simp [hpass]
    · have hdropE : t.drop e = [] := by
        rw [he']
        simp
      have hph : NoTerm (placeholderLine alt src) := noTerm_placeholderLine halt hsrc
      have hinner : imgLoopGo t.length (placeholderLine alt src) e =
          (placeholderLine alt src, []) :=
        imgLoopGo_none (findImgMatch_noTerm_pos hph he1) (by omega)
      have hpass : imgRewriteBlock t = (placeholderLine alt src, [src]) := by
        unfold imgRewriteBlock
        simp [imgLoopGo, hfind, hr, hdropE, hinner]
      have hfind3 : findImgMatch (placeholderLine alt src) 0 = none := by
        rw [findImgMatch_noTerm_zero hph, imgMatchAt_placeholder hA]; rfl
      have hpass2 : imgRewriteBlock (placeholderLine alt src) =
          (placeholderLine alt src, []) := imgLoopGo_none hfind3 (by omega)
      rw [hpass]
      simpa using hpass2

/-- Claim C7 amended witness: one local image reference, rewritten once,
is untouched by a second pass. -/
theorem c7_single_line_rewrite_idempotent_witness :
    imgRewriteBlock (imgRewriteBlock "![a](b.png)".data).1 =
      ((imgRewriteBlock "![a](b.png)".data).1, []) :=
  c7_single_line_rewrite_idempotent "![a](b.png)".data
    (noTerm_iff_all.mpr (by decide))

/-- Claim C8 counterexample: `"k:\doc.md"` begins with the lowercase drive
letter `k` followed by `:\`, but the source's character class
`[cdefghij]` does not contain `k`, so the derived output path keeps the
lowercase letter, contradicting the claim's "whenever the path begins with
a lowercase drive letter". -/
theorem c8_drive_k_not_uppercased :
    derivedOutPath "k:\\doc.md".data = "k:\\doc.html".data ∧
    derivedOutPath "k:\\doc.md".data ≠ "K:\\doc.html".data := by
  exact ⟨rfl, by decide⟩

/-- Claim C8 as amended: the derived output path always ends in `.html`; a
trailing extension (a dot followed by a nonempty word-character suffix) is
replaced by `.html` (with the drive normalisation applied to the result);
and a path beginning `c:\`..`j:\` (the letters of the source's character
class, not every lowercase letter) gets its drive letter uppercased. -/
theorem c8_outpath_derivation :
    (∀ s : List Char, endsWithL (derivedOutPath s) ".html".data = true) ∧
    (∀ a w : List Char, w ≠ [] → (∀ c ∈ w, isWordChar c = true) →
      driveFix (a ++ ".html".data) = a ++ ".html".data →
      derivedOutPath (a ++ '.' :: w) = a ++ ".html".data) ∧
    (∀ (c : Char) (a w : List Char), c ∈ driveLetters → w ≠ [] →
      (∀ x ∈ w, isWordChar x = true) →
      derivedOutPath (c :: ':' :: '\\' :: (a ++ '.' :: w)) =
        c.toUpper :: ':' :: '\\' :: (a ++ ".html".data)) := by
  refine ⟨fun s => ?_, fun a w hw hall hdrive => ?_, fun c a w hc hw hall => ?_⟩
  · by_cases h : endsWithL (driveFix (replaceTrailingExt s)) ".html".data = true
    · simp [derivedOutPath, h]
    · simp [derivedOutPath, h, endsWithL_append]
  · simp [derivedOutPath, replaceTrailingExt, extSplit_append hw hall, hdrive,
      endsWithL_append]
  · have h1 : extSplit (c :: ':' :: '\\' :: (a ++ '.' :: w)) =
        some (c :: ':' :: '\\' :: a) := by
      simp [extSplit, extSplit_append hw hall]
    have h4 : replaceTrailingExt (c :: ':' :: '\\' :: (a ++ '.' :: w)) =
        c :: ':' :: '\\' :: (a ++ ".html".data) := by
      simp [replaceTrailingExt, h1]
    have h5 : driveFix (c :: ':' :: '\\' :: (a ++ ".html".data)) =
        c.toUpper :: ':' :: '\\' :: (a ++ ".html".data) := by
      simp [driveFix, hc]
    have h3 : endsWithL (c.toUpper :: ':' :: '\\' :: (a ++ ".html".data))
        ".html".data = true := by
      simpa using endsWithL_append (c.toUpper :: ':' :: '\\' :: a) ".html".data
    simp [derivedOutPath, h4, h5, h3]

/-- Claim C8 amended witness: extension replacement, `.html` appension and
`c:\` drive normalisation at concrete paths. -/
theorem c8_outpath_derivation_witness :
    endsWithL (derivedOutPath "file".data) ".html".data = true ∧
    derivedOutPath ("doc".data ++ '.' :: "md".data) = "doc".data ++ ".html".data ∧
    derivedOutPath ('c' :: ':' :: '\\' :: ("doc".data ++ '.' :: "md".data)) =
      'c'.toUpper :: ':' :: '\\' :: ("doc".data ++ ".html".data) :=
  ⟨c8_outpath_derivation.1 "file".data,
   c8_outpath_derivation.2.1 "doc".data "md".data (by decide) (by decide) (by decide),
   c8_outpath_derivation.2.2 'c' "doc".data "md".data (by decide) (by decide) (by decide)⟩

/-- Claim C10: `getDocumentTitle` scans every line of the raw text with no
fence exclusion — in `"x\n```\n# Inside fence\n```\ny"` the only ATX line
lies inside a fenced block and still becomes the title (and hence the
synthetic `"# "`-prefixed ToC root); and the fallback `"Untitled"` arises
exactly when no line of the whole text matches `/^#{1,6} /`. -/
theorem c10_title_scans_fenced_lines :
    getDocumentTitle "x\n```\n# Inside fence\n```\ny".data = "Inside fence".data ∧
    (tocStringList (getDocumentTitle "x\n```\n# Inside fence\n```\ny".data)
        "x\n```\n# Inside fence\n```\ny".data).head? =
      some "# Inside fence".data ∧
    ∀ text : List Char, (∀ l ∈ splitTermChars text, isAtxTitleLine l = false) →
      getDocumentTitle text = "Untitled".data := by
  refine ⟨rfl, rfl, fun text h => ?_⟩
  unfold getDocumentTitle
  rw [List.find?_eq_none.mpr fun l hl => by simp [h l hl]]

/-- Claim C10 witness: a text with no ATX heading line gets the fallback
title. -/
theorem c10_title_scans_fenced_lines_witness :
    getDocumentTitle "plain text only".data = "Untitled".data :=
  c10_title_scans_fenced_lines.2.2 "plain text only".data (by decide)

/-- Claim C9: whenever the pretty-printer call throws, the stage returns
exactly the pre-format string and surfaces exactly one warning, built from
the thrown message with ANSI colour sequences stripped; the failure never
prevents the html from being returned. -/
theorem c9_format_fallback (format : String → Except String String)
    (title zennHtml e : String) (h : format zennHtml = .error e) :
    formatStage format title zennHtml = (zennHtml, [formatWarning title e]) ∧
    (formatStage format title zennHtml).2.length = 1 := by
  simp [formatStage, h]

/-- Claim C9 witness: a formatter that always throws, with a colour escape
in its message. -/
theorem c9_format_fallback_witness :
    formatStage (fun _ => .error "x\x1b[31my") "T" "<p></p>" =
      ("<p></p>", [formatWarning "T" "x\x1b[31my"]) ∧
    formatWarning "T" "x\x1b[31my" =
      "🐶 T をhtml化しましたが、htmlとしてparseできないhtmlになっています 🐶\n\nxy" :=
  ⟨(c9_format_fallback (fun _ => .error "x\x1b[31my") "T" "<p></p>" "x\x1b[31my" rfl).1, rfl⟩

end ZennExport
